import Mathlib

/-!
Verification of the Power Pet Door schedule card
(`src/www/powerpetdoor-schedule-card.js`).

The JavaScript source is shallowly embedded below.  Times-of-day are the
`"HH:MM"` strings the card stores; JS strings are modelled as Lean `String`
(a packed `List Char`), JS numbers arising here are integers (the card only
ever computes on whole minutes), so they are modelled as `Nat`/`Int`.
The card's schedule object maps the seven lowercase weekday keys to arrays
of slots; it is modelled as a seven-field structure of `Option (List Slot)`
(`none` = key absent, mirroring JS `delete`), which matches the literal
seven-key objects the source itself writes out.
-/

namespace PPD

/-- The seven weekday keys of the `DAYS` constant in the source. -/
inductive Day where
  | sunday | monday | tuesday | wednesday | thursday | friday | saturday
deriving DecidableEq, Repr

/-- A schedule slot `{from: "HH:MM", to: "HH:MM"}`.  The JS field `from` is a
Lean keyword, so it is rendered `from_`. -/
structure Slot where
  from_ : String
  to_ : String
deriving DecidableEq, Repr

/-- The schedule store `this._schedule`: each weekday key is either absent
(`none`) or maps to an array of slots. -/
structure Sched where
  sunday : Option (List Slot)
  monday : Option (List Slot)
  tuesday : Option (List Slot)
  wednesday : Option (List Slot)
  thursday : Option (List Slot)
  friday : Option (List Slot)
  saturday : Option (List Slot)
deriving DecidableEq, Repr

/-- Lookup `schedule[day]`. -/
def Sched.get (S : Sched) (d : Day) : Option (List Slot) :=
  match d with
  | .sunday => S.sunday
  | .monday => S.monday
  | .tuesday => S.tuesday
  | .wednesday => S.wednesday
  | .thursday => S.thursday
  | .friday => S.friday
  | .saturday => S.saturday

/-- Assignment `schedule[day] = v` (with `v = none` meaning `delete`). -/
def Sched.set (S : Sched) (d : Day) (v : Option (List Slot)) : Sched :=
  match d with
  | .sunday => { S with sunday := v }
  | .monday => { S with monday := v }
  | .tuesday => { S with tuesday := v }
  | .wednesday => { S with wednesday := v }
  | .thursday => { S with thursday := v }
  | .friday => { S with friday := v }
  | .saturday => { S with saturday := v }

/-- `Object.values(schedule)` in the key order the source declares. -/
def Sched.values (S : Sched) : List (Option (List Slot)) :=
  [S.sunday, S.monday, S.tuesday, S.wednesday, S.thursday, S.friday, S.saturday]

/-- The empty store `{}`. -/
def emptySched : Sched := ⟨none, none, none, none, none, none, none⟩

/-! ### TimeMath: `_parseTimeToMinutes`, `_minutesToTime`, `_roundToInterval` -/

/-- Digit character for `n < 10`, as produced by JS `Number.prototype.toString`. -/
def digitChar (n : Nat) : Char := Char.ofNat (48 + n)

/-- JS `n.toString()` restricted to `n < 100`, the only range `_minutesToTime`
ever feeds it (hours are clamped to `≤ 23`, minutes to `≤ 59`). -/
def natToChars (n : Nat) : List Char :=
  if n < 10 then [digitChar n] else [digitChar (n / 10), digitChar (n % 10)]

/-- JS `s.padStart(2, '0')`. -/
def padStart2 (s : List Char) : List Char :=
  if s.length < 2 then List.replicate (2 - s.length) '0' ++ s else s

/-- JS `Number(c)` of a single digit character. -/
def charDigit (c : Char) : Nat := c.toNat - 48

/-- Decimal value of a digit string, as JS `Number` computes it on the digit
strings the card produces (`Number("") = 0`, `Number("08") = 8`). -/
def digitsToNat (l : List Char) : Nat :=
  l.foldl (fun acc c => acc * 10 + charDigit c) 0

/-- JS `time.split(':')` on the underlying character list. -/
def splitColon : List Char → List (List Char)
  | [] => [[]]
  | c :: t =>
    match splitColon t with
    | [] => [[c]]
    | a :: r => if c = ':' then [] :: a :: r else (c :: a) :: r

/-- `_parseTimeToMinutes(time)`: `if (!time) return 0;` then
`const [hours, minutes] = time.split(':').map(Number); return hours*60+minutes;`.
On a colon-free non-empty input JS would yield `NaN`; the card never produces
such inputs and the model returns the hours contribution alone there. -/
def parseTimeToMinutes (time : String) : Nat :=
  if time = "" then 0
  else
    match splitColon time.data with
    | h :: m :: _ => digitsToNat h * 60 + digitsToNat m
    | [h] => digitsToNat h * 60
    | [] => 0

/-- `_minutesToTime(minutes)`: clamp to `[0, 1439]`, then render zero-padded
`"HH:MM"`.  The argument is an `Int` because drag arithmetic can go negative. -/
def minutesToTime (minutes : Int) : String :=
  let clamped : Int := max 0 (min 1439 minutes)
  let c : Nat := clamped.toNat
  let h := c / 60
  let m := c % 60
  ⟨padStart2 (natToChars h) ++ ':' :: padStart2 (natToChars m)⟩

/-- `_roundToInterval(minutes, interval)`: `Math.round(minutes / interval) * interval`.
For a non-negative integer argument `Math.round(m / i) = ⌊(2m + i) / 2i⌋`. -/
def roundToInterval (minutes : Nat) (interval : Nat) : Nat :=
  ((2 * minutes + interval) / (2 * interval)) * interval

/-! ### ScheduleModel: `_hasSchedule`, `_getEffectiveSchedule`, `_ensureRealSlotExists` -/

/-- The all-day slot literal `{ from: '00:00', to: '24:00' }`. -/
def allDaySlot : Slot := ⟨"00:00", "24:00"⟩

/-- `_hasSchedule()`: `Object.keys(this._schedule).length > 0 &&
Object.values(this._schedule).some(slots => slots && slots.length > 0)`. -/
def hasSchedule (S : Sched) : Bool :=
  (S.values.any Option.isSome) &&
  (S.values.any fun v => match v with | some l => !l.isEmpty | none => false)

/-- The object `_getEffectiveSchedule` returns when no schedule is set: every
day maps to the all-day slot. -/
def allDayEffSched : Sched :=
  ⟨some [allDaySlot], some [allDaySlot], some [allDaySlot], some [allDaySlot],
   some [allDaySlot], some [allDaySlot], some [allDaySlot]⟩

/-- `_getEffectiveSchedule()`: the implied 24/7 schedule when `_hasSchedule()`
is false, otherwise the stored schedule itself.  A pure read-only projection:
it never assigns to `this._schedule`. -/
def getEffectiveSchedule (S : Sched) : Sched :=
  if hasSchedule S then S else allDayEffSched

/-- `_ensureRealSlotExists(day, index)` (returns the updated store).  When the
store is implied-24/7 it is replaced wholesale by seven spread-copies
`{...allDay}`; otherwise a missing `store[day][index]` would be filled from the
effective schedule (a defensive branch; with `hasSchedule` true the effective
schedule is the store itself, so the fill never fires). -/
def ensureRealSlotExists (S : Sched) (day : Day) (index : Nat) : Sched :=
  if hasSchedule S = false then allDayEffSched
  else
    let missing : Bool :=
      match S.get day with
      | none => true
      | some l => (l.get? index).isNone
    if missing then
      match (getEffectiveSchedule S).get day |>.bind (fun l => l.get? index) with
      | some eff => S.set day (some (((S.get day).getD []).set index eff))
      | none => S
    else S

/-! ### InteractionController: drag commits, dialog, snapshot gating -/

/-- Sort key of the comparator `(a, b) => parse(a.from) - parse(b.from)`. -/
def slotKey (s : Slot) : Nat := parseTimeToMinutes s.from_

/-- One step of a stable ascending insertion by `slotKey`: the element being
inserted was earlier in the input, so on a tie it goes before the elements
already placed. -/
def orderedInsert (x : Slot) : List Slot → List Slot
  | [] => [x]
  | a :: t => if slotKey x ≤ slotKey a then x :: a :: t else a :: orderedInsert x t

/-- `arr.sort((a, b) => parse(a.from) - parse(b.from))`.  JS `Array.prototype.sort`
is stable (ES2019), and a stable ascending sort has a unique result: the sorted
permutation keeping equal-key elements in input order.  Folding `orderedInsert`
from the right realises exactly that result. -/
def sortDay (l : List Slot) : List Slot := l.foldr orderedInsert []

/-- Insertion of `x` after all elements of equal key — what `sortDay` does to a
list that is already sorted and gets `x` appended (proved below). -/
def insertAfter (x : Slot) : List Slot → List Slot
  | [] => [x]
  | a :: t => if slotKey a ≤ slotKey x then a :: insertAfter x t else x :: a :: t

/-- The `findIndex(s => s.from === startTime && s.to === endTime)` predicate. -/
def slotMatches (startTime endTime : String) (s : Slot) : Bool :=
  s.from_ == startTime && s.to_ == endTime

/-- The `'create'` branch of `_handleMouseUp`: compute the final minute range
(click-to-create when the drag spanned less than 15 minutes), format it, push
the new slot into the day (creating the day array if absent), sort the day,
and open the dialog (`_editingSlot`, `_isNewSlot = true`) at the index
`findIndex` locates by string equality.  Returns
(schedule, editingSlot, isNewSlot). -/
def commitCreate (S : Sched) (day : Day) (startMin currentMin : Nat) :
    Sched × Option (Day × Nat) × Bool :=
  let topMin := min startMin currentMin
  let bottomMin := max startMin currentMin
  let duration := bottomMin - topMin
  let finalStartMin := if duration < 15 then roundToInterval startMin 15 else topMin
  let finalEndMin :=
    if duration < 15 then min (roundToInterval startMin 15 + 15) 1440 else bottomMin
  let startTime := minutesToTime (finalStartMin : Int)
  let endTime := minutesToTime (finalEndMin : Int)
  let l := (S.get day).getD []
  let sorted := sortDay (l ++ [⟨startTime, endTime⟩])
  let sortedIndex := sorted.findIdx (slotMatches startTime endTime)
  (S.set day (some sorted), some (day, sortedIndex), true)

/-- `_handleMouseMove` clamp for a `'resize-top'` drag:
`Math.min(minutes, bottomMinutes - 15)` (integer arithmetic, may go negative). -/
def resizeTopCurrentMin (slot : Slot) (minutes : Nat) : Int :=
  min (minutes : Int) ((parseTimeToMinutes slot.to_ : Int) - 15)

/-- `_handleMouseMove` clamp for a `'resize-bottom'` drag:
`Math.max(minutes, topMinutes + 15)`. -/
def resizeBottomCurrentMin (slot : Slot) (minutes : Nat) : Int :=
  max (minutes : Int) ((parseTimeToMinutes slot.from_ : Int) + 15)

/-- The `'resize-top'` commit in `_handleMouseUp`:
`slot.from = this._minutesToTime(this._dragCurrentMinutes)`. -/
def commitResizeTop (slot : Slot) (minutes : Nat) : Slot :=
  ⟨minutesToTime (resizeTopCurrentMin slot minutes), slot.to_⟩

/-- The `'resize-bottom'` commit in `_handleMouseUp`:
`slot.to = this._minutesToTime(this._dragCurrentMinutes)`. -/
def commitResizeBottom (slot : Slot) (minutes : Nat) : Slot :=
  ⟨slot.from_, minutesToTime (resizeBottomCurrentMin slot minutes)⟩

/-- `_closeDialog()`: when the open dialog is for a freshly created slot
(`_isNewSlot`), splice the slot back out of its day and delete the day key if
the day became empty; always clear the edit session.  Returns
(schedule, editingSlot, isNewSlot). -/
def closeDialog (S : Sched) (editingSlot : Option (Day × Nat)) (isNewSlot : Bool) :
    Sched × Option (Day × Nat) × Bool :=
  match editingSlot, isNewSlot with
  | some (day, index), true =>
    match S.get day with
    | some l =>
      if (l.get? index).isSome then
        let l' := l.eraseIdx index
        (if l'.isEmpty then S.set day none else S.set day (some l'), none, false)
      else (S, none, false)
    | none => (S, none, false)
  | _, _ => (S, none, false)

/-- `this._schedule[day][index] = { from, to }` inside `_handleSlotUpdate`.
The dialog only ever points at an existing `(day, index)`, which the theorems
assume; `List.set` is the in-range array store. -/
def replaceAt (S : Sched) (day : Day) (index : Nat) (slot : Slot) : Sched :=
  S.set day (some (((S.get day).getD []).set index slot))

/-- `_handleSlotUpdate(day, index, from, to)`: the guarded save
`if (from && to && from < to)` — JS `<` on two `"HH:MM"` strings is
lexicographic character comparison, as is Lean's `String` `<`.  On success the
slot is replaced and the edit session cleared; otherwise nothing happens.
Returns (schedule, editingSlot). -/
def handleSlotUpdate (S : Sched) (editingSlot : Option (Day × Nat)) (day : Day)
    (index : Nat) (fromv tov : String) : Sched × Option (Day × Nat) :=
  if fromv ≠ "" ∧ tov ≠ "" ∧ fromv < tov then
    (replaceAt S day index ⟨fromv, tov⟩, none)
  else (S, editingSlot)

/-- The dialog Save click listener: it reads the two inputs and calls
`_handleSlotUpdate` only when `from && to && this._editingSlot`. -/
def dialogSaveClick (S : Sched) (editingSlot : Option (Day × Nat))
    (fromv tov : String) : Sched × Option (Day × Nat) :=
  match editingSlot with
  | some (day, index) =>
    if fromv ≠ "" ∧ tov ≠ "" then handleSlotUpdate S editingSlot day index fromv tov
    else (S, editingSlot)
  | none => (S, editingSlot)

/-- An entity snapshot: `hass.states` maps entity ids to state objects, here
abstracted by identity tokens so that JS `!==` (reference inequality) is
token inequality. -/
structure HassStates where
  states : String → Option Nat

/-- The reload condition of `set hass`:
`!oldHass || oldHass.states[entity] !== hass.states[entity]`. -/
def snapshotChanged (entity : String) (oldHass : Option HassStates)
    (newHass : HassStates) : Bool :=
  match oldHass with
  | none => true
  | some o => o.states entity != newHass.states entity

/-- `set hass(hass)`: reload the schedule only when the entity state object
changed identity, the entity is configured, and neither a drag session
(`_isDragging`) nor an edit session (`_editingSlot`) is active.  `loaded` is
the schedule the transport would deliver; the second component reports whether
`_loadSchedule()` was invoked. -/
def setHass (entity : String) (oldHass : Option HassStates) (newHass : HassStates)
    (isDragging : Bool) (editingSlot : Option (Day × Nat))
    (S loaded : Sched) : Sched × Bool :=
  if snapshotChanged entity oldHass newHass
     && (entity != "") && !isDragging && editingSlot.isNone then
    (loaded, true)
  else (S, false)

/-- Slots tagged with an allocation identity, to express which JS object each
slot is: two tags are equal exactly when the two slots are the same object. -/
structure TSlot where
  slot : Slot
  tag : Nat
deriving DecidableEq, Repr

/-- Tagged schedule store. -/
structure TSched where
  sunday : Option (List TSlot)
  monday : Option (List TSlot)
  tuesday : Option (List TSlot)
  wednesday : Option (List TSlot)
  thursday : Option (List TSlot)
  friday : Option (List TSlot)
  saturday : Option (List TSlot)
deriving DecidableEq, Repr

/-- Lookup in a tagged store. -/
def TSched.get (S : TSched) (d : Day) : Option (List TSlot) :=
  match d with
  | .sunday => S.sunday
  | .monday => S.monday
  | .tuesday => S.tuesday
  | .wednesday => S.wednesday
  | .thursday => S.thursday
  | .friday => S.friday
  | .saturday => S.saturday

/-- The empty tagged store. -/
def emptyTSched : TSched := ⟨none, none, none, none, none, none, none⟩

/-- Whether a tagged store has any slots (same shape as `hasSchedule`). -/
def hasScheduleT (S : TSched) : Bool :=
  ([S.sunday, S.monday, S.tuesday, S.wednesday, S.thursday, S.friday,
    S.saturday].any Option.isSome) &&
  ([S.sunday, S.monday, S.tuesday, S.wednesday, S.thursday, S.friday,
    S.saturday].any fun v => match v with | some l => !l.isEmpty | none => false)

/-- The implied-24/7 branch of `_ensureRealSlotExists` with object identity
made explicit: the seven `{ ...allDay }` spreads each evaluate to a fresh
object, so the seven days receive seven distinct allocation tags, numbered in
the order the literal writes them. -/
def ensureRealSlotExistsT (S : TSched) (_day : Day) (_index : Nat) : TSched :=
  if hasScheduleT S = false then
    ⟨some [⟨allDaySlot, 0⟩], some [⟨allDaySlot, 1⟩], some [⟨allDaySlot, 2⟩],
     some [⟨allDaySlot, 3⟩], some [⟨allDaySlot, 4⟩], some [⟨allDaySlot, 5⟩],
     some [⟨allDaySlot, 6⟩]⟩
  else S

/-- The allocation tag of the first slot of a day in a tagged store. -/
def tagAt (S : TSched) (d : Day) : Nat :=
  match S.get d with
  | some (x :: _) => x.tag
  | _ => 0



/-- Spec-side characterisation used by C5: the stored schedule "contains zero
slots across all days" — every day key is absent or maps to an empty array. -/
def zeroSlotsAcrossAllDays (S : Sched) : Bool :=
  S.values.all fun v => (v.getD []).isEmpty

/-- A transport-delivered schedule whose Monday sequence is not sorted by
`from` (the transport contract does not promise sortedness). -/
def unsortedMonday : Sched :=
  ⟨none, some [⟨"12:00", "13:00"⟩, ⟨"08:00", "09:00"⟩], none, none, none, none, none⟩

/-! ## Lemmas and theorems -/

lemma digits_pad2 : ∀ n : Nat, n < 100 → digitsToNat (padStart2 (natToChars n)) = n := by decide

lemma colon_not_mem_pad2 : ∀ n : Nat, n < 100 → ':' ∉ padStart2 (natToChars n) := by decide

lemma pad2_length : ∀ n : Nat, n < 100 → (padStart2 (natToChars n)).length = 2 := by decide

lemma splitColon_ne_nil (b : List Char) : splitColon b ≠ [] := by
  cases b with
  | nil => simp [splitColon]
  | cons c t =>
    rw [splitColon]
    cases splitColon t with
    | nil => simp
    | cons a r => by_cases h : c = ':' <;> simp [h]

lemma splitColon_no_colon (b : List Char) (hb : ':' ∉ b) : splitColon b = [b] := by
  induction b with
  | nil => rfl
  | cons c t ih =>
    simp only [List.mem_cons, not_or] at hb
    rw [splitColon, ih hb.2]
    have hc : ¬c = ':' := fun h => hb.1 h.symm
    simp [hc]

lemma splitColon_append (a b : List Char) (ha : ':' ∉ a) :
    splitColon (a ++ ':' :: b) = a :: splitColon b := by
  induction a with
  | nil =>
    rw [List.nil_append, splitColon]
    cases h : splitColon b with
    | nil => exact absurd h (splitColon_ne_nil b)
    | cons x r => simp
  | cons c t ih =>
    simp only [List.mem_cons, not_or] at ha
    rw [List.cons_append, splitColon, ih ha.2]
    have hc : ¬c = ':' := fun h => ha.1 h.symm
    simp [hc]

theorem parse_fmt_nat (c : Nat) (hc : c ≤ 1439) : parseTimeToMinutes (minutesToTime c) = c := by
  have hcl : max 0 (min 1439 (c : Int)) = (c : Int) := by omega
  have h60 : c / 60 < 100 := by omega
  have hm60 : c % 60 < 100 := Nat.lt_of_lt_of_le (Nat.mod_lt _ (by norm_num)) (by norm_num)
  rw [minutesToTime]
  simp only [hcl, Int.toNat_ofNat]
  rw [parseTimeToMinutes]
  rw [if_neg (by
    intro h
    have h2 : (padStart2 (natToChars (c / 60)) ++ ':' :: padStart2 (natToChars (c % 60))) = ([] : List Char) := congrArg String.data h
    simp at h2)]
  rw [show (String.mk (padStart2 (natToChars (c / 60)) ++ ':' :: padStart2 (natToChars (c % 60)))).data = padStart2 (natToChars (c / 60)) ++ ':' :: padStart2 (natToChars (c % 60)) from rfl,
      splitColon_append _ _ (colon_not_mem_pad2 _ h60),
      splitColon_no_colon _ (colon_not_mem_pad2 _ hm60)]
  have hred : (match [padStart2 (natToChars (c / 60)), padStart2 (natToChars (c % 60))] with
    | h :: m :: _ => digitsToNat h * 60 + digitsToNat m
    | [h] => digitsToNat h * 60
    | [] => 0) = digitsToNat (padStart2 (natToChars (c / 60))) * 60 + digitsToNat (padStart2 (natToChars (c % 60))) := rfl
  rw [hred, digits_pad2 _ h60, digits_pad2 _ hm60]
  omega

lemma minutesToTime_clamp (z : Int) :
    minutesToTime z = minutesToTime (max 0 (min 1439 z)) := by
  rw [minutesToTime, minutesToTime]
  have : max 0 (min 1439 (max 0 (min 1439 z))) = max 0 (min 1439 z) := by omega
  rw [this]

theorem parse_fmt_int (z : Int) :
    parseTimeToMinutes (minutesToTime z) = (max 0 (min 1439 z)).toNat := by
  rw [minutesToTime_clamp]
  have h1 : (0 : Int) ≤ max 0 (min 1439 z) := le_max_left _ _
  have h2 : max 0 (min 1439 z) ≤ 1439 := by omega
  have h3 : max 0 (min 1439 z) = ((max 0 (min 1439 z)).toNat : Int) := by omega
  rw [h3]
  exact parse_fmt_nat _ (by omega)


lemma get_set_same (S : Sched) (d : Day) (v : Option (List Slot)) :
    (S.set d v).get d = v := by
  cases d <;> rfl

lemma set_get_self (S : Sched) (d : Day) : S.set d (S.get d) = S := by
  cases d <;> rfl

lemma set_set_same (S : Sched) (d : Day) (v w : Option (List Slot)) :
    (S.set d v).set d w = S.set d w := by
  cases d <;> rfl

lemma set_eq_self (S : Sched) (d : Day) (v : Option (List Slot)) (h : S.get d = v) :
    S.set d v = S := by
  rw [← h, set_get_self]


lemma any_nonempty_eq_not_all_empty (vs : List (Option (List Slot))) :
    ((vs.any Option.isSome) &&
      (vs.any fun v => match v with | some l => !l.isEmpty | none => false)) =
    !(vs.all fun v => (v.getD []).isEmpty) := by
  have hmatch : (fun v : Option (List Slot) =>
      match v with | some l => !l.isEmpty | none => false) =
      (fun v => !(v.getD []).isEmpty) := funext fun v => by cases v <;> rfl
  rw [hmatch]
  induction vs with
  | nil => rfl
  | cons v t ih =>
    cases v with
    | none => simp only [List.any_cons, List.all_cons, Option.isSome_none,
        Option.getD_none, List.isEmpty_nil, Bool.not_true, Bool.false_or,
        Bool.true_and, ih]
    | some l =>
      simp only [List.any_cons, List.all_cons, Option.isSome_some,
        Option.getD_some, Bool.true_or, Bool.true_and, Bool.not_and]
      cases hE : l.isEmpty with
      | false => simp
      | true =>
        simp only [Bool.not_true, Bool.false_or, Bool.true_and,
          List.all_eq_not_any_not, Bool.not_not]
  
lemma hasSchedule_eq (S : Sched) : hasSchedule S = !zeroSlotsAcrossAllDays S := by
  rw [hasSchedule, zeroSlotsAcrossAllDays, any_nonempty_eq_not_all_empty]

/-- C5.  Confirmed.  `_getEffectiveSchedule` is a pure projection of the
stored schedule (it is modelled as a function and performs no store writes):
when the store contains zero slots across all days it returns the all-day
(`00:00`–`24:00`) slot for each of the seven weekdays, and otherwise it
returns the stored schedule itself. -/
theorem C5_effective_schedule (S : Sched) :
    (zeroSlotsAcrossAllDays S = true ∧ getEffectiveSchedule S = allDayEffSched) ∨
    (zeroSlotsAcrossAllDays S = false ∧ getEffectiveSchedule S = S) := by
  rw [getEffectiveSchedule, hasSchedule_eq S]
  cases h : zeroSlotsAcrossAllDays S with
  | true => left; exact ⟨rfl, by simp⟩
  | false => right; exact ⟨rfl, by simp⟩

/-- C4.  Confirmed.  On every snapshot delivered through the `hass` setter:
either the stored schedule is left untouched and no reload fires, or the
entity state object changed identity while no drag session and no edit
session was active (the only situation in which `_loadSchedule` runs). -/
theorem C4_snapshot_gating (entity : String) (oldHass : Option HassStates)
    (newHass : HassStates) (isDragging : Bool) (editingSlot : Option (Day × Nat))
    (S loaded : Sched) :
    ((setHass entity oldHass newHass isDragging editingSlot S loaded).1 = S ∧
     (setHass entity oldHass newHass isDragging editingSlot S loaded).2 = false) ∨
    (snapshotChanged entity oldHass newHass = true ∧ entity ≠ "" ∧
     isDragging = false ∧ editingSlot = none) := by
  rw [setHass]
  by_cases h : (snapshotChanged entity oldHass newHass
      && (entity != "") && !isDragging && editingSlot.isNone) = true
  · right
    simp only [Bool.and_eq_true, bne_iff_ne, Bool.not_eq_true',
      Option.isNone_iff_eq_none] at h
    exact ⟨h.1.1.1, h.1.1.2, h.1.2, h.2⟩
  · left
    rw [if_neg h]
    exact ⟨rfl, rfl⟩

lemma effective_of_hasSchedule {S : Sched} (h : hasSchedule S = true) :
    getEffectiveSchedule S = S := by
  rw [getEffectiveSchedule, if_pos h]

lemma ensureReal_of_hasSchedule {S : Sched} (d : Day) (i : Nat)
    (h : hasSchedule S = true) : ensureRealSlotExists S d i = S := by
  rw [ensureRealSlotExists, if_neg (by simp [h]), effective_of_hasSchedule h]
  cases hG : S.get d with
  | none => simp [hG]
  | some l =>
    cases hI : l.get? i with
    | none =>
      have hI2 : l[i]? = none := by rw [← List.get?_eq_getElem?]; exact hI
      simp [hG, hI, hI2]
    | some x =>
      have hI2 : l[i]? = some x := by rw [← List.get?_eq_getElem?]; exact hI
      simp [hG, hI, hI2]

lemma hasSchedule_allDayEff : hasSchedule allDayEffSched = true := by decide

/-- C6.  Confirmed.  `_ensureRealSlotExists` is idempotent: a second call with
the same `(day, index)` leaves the store exactly as the first call did.  The
first call on the empty store replaces it with an all-day entry for every one
of the seven days, and (in the allocation-tagged model, where each of the
seven `{...allDay}` spread-copies receives a fresh tag) the slot objects of
distinct days are distinct objects. -/
theorem C6_materialise_idempotent (S : Sched) (day : Day) (index : Nat)
    (d1 d2 : Day) (hne : d1 ≠ d2) :
    ensureRealSlotExists (ensureRealSlotExists S day index) day index =
      ensureRealSlotExists S day index ∧
    ensureRealSlotExists emptySched day index = allDayEffSched ∧
    tagAt (ensureRealSlotExistsT emptyTSched day index) d1 ≠
      tagAt (ensureRealSlotExistsT emptyTSched day index) d2 := by
  refine ⟨?_, rfl, ?_⟩
  · by_cases h : hasSchedule S = true
    · rw [ensureReal_of_hasSchedule day index h, ensureReal_of_hasSchedule day index h]
    · have h1 : ensureRealSlotExists S day index = allDayEffSched := by
        rw [ensureRealSlotExists, if_pos (by simpa using h)]
      rw [h1, ensureReal_of_hasSchedule day index hasSchedule_allDayEff]
  · have h2 : ensureRealSlotExistsT emptyTSched day index =
        ⟨some [⟨allDaySlot, 0⟩], some [⟨allDaySlot, 1⟩], some [⟨allDaySlot, 2⟩],
         some [⟨allDaySlot, 3⟩], some [⟨allDaySlot, 4⟩], some [⟨allDaySlot, 5⟩],
         some [⟨allDaySlot, 6⟩]⟩ := rfl
    rw [h2]
    cases d1 <;> cases d2 <;> first | exact absurd rfl hne | decide

/-- C6 witness: concrete instantiation on the empty store with
`(day, index) = (monday, 0)` and the distinct days sunday/saturday. -/
theorem C6_witness :
    ensureRealSlotExists (ensureRealSlotExists emptySched Day.monday 0) Day.monday 0 =
      ensureRealSlotExists emptySched Day.monday 0 ∧
    ensureRealSlotExists emptySched Day.monday 0 = allDayEffSched ∧
    tagAt (ensureRealSlotExistsT emptyTSched Day.monday 0) Day.sunday ≠
      tagAt (ensureRealSlotExistsT emptyTSched Day.monday 0) Day.saturday :=
  C6_materialise_idempotent emptySched Day.monday 0 Day.sunday Day.saturday (by decide)

/-- C8.  Confirmed.  For an edit session pointing at an existing slot
`(day, index)`, pressing Save applies the update exactly when both inputs are
non-empty and `from < to` (the JS `<` on two `"HH:MM"` strings, i.e.
lexicographic comparison): then the slot is replaced by `{from, to}` and the
edit session is cleared; in every other case the store is unchanged and the
edit session (the dialog) stays open. -/
theorem C8_dialog_save_validation (S : Sched) (day : Day) (index : Nat)
    (l : List Slot) (fromv tov : String)
    (hl : S.get day = some l) (_hi : index < l.length) :
    ((dialogSaveClick S (some (day, index)) fromv tov).2.isNone =
      (decide (fromv ≠ "") && decide (tov ≠ "") && decide (fromv < tov))) ∧
    ((dialogSaveClick S (some (day, index)) fromv tov).1 =
      if fromv ≠ "" ∧ tov ≠ "" ∧ fromv < tov then
        S.set day (some (l.set index ⟨fromv, tov⟩))
      else S) := by
  rw [dialogSaveClick]
  by_cases h1 : fromv ≠ ""
  · by_cases h2 : tov ≠ ""
    · rw [if_pos ⟨h1, h2⟩, handleSlotUpdate]
      by_cases h3 : fromv < tov
      · rw [if_pos ⟨h1, h2, h3⟩, if_pos ⟨h1, h2, h3⟩, replaceAt, hl]
        simp [h1, h2, h3]
      · rw [if_neg (by tauto), if_neg (by tauto)]
        simp [h1, h2, h3]
    · rw [if_neg (by tauto), if_neg (by tauto)]
      simp [h1, h2]
  · rw [if_neg (by tauto), if_neg (by tauto)]
    simp [h1]

/-- C8 witness: a valid save on a concrete one-slot schedule is applied, with
the session cleared and the slot replaced. -/
theorem C8_witness :
    ((dialogSaveClick ⟨none, some [⟨"06:00", "20:00"⟩], none, none, none, none, none⟩
        (some (Day.monday, 0)) "08:00" "09:00").2.isNone =
      (decide (("08:00" : String) ≠ "") && decide (("09:00" : String) ≠ "") &&
       decide (("08:00" : String) < "09:00"))) ∧
    ((dialogSaveClick ⟨none, some [⟨"06:00", "20:00"⟩], none, none, none, none, none⟩
        (some (Day.monday, 0)) "08:00" "09:00").1 =
      if ("08:00" : String) ≠ "" ∧ ("09:00" : String) ≠ "" ∧ ("08:00" : String) < "09:00" then
        Sched.set ⟨none, some [⟨"06:00", "20:00"⟩], none, none, none, none, none⟩ Day.monday
          (some ([⟨"06:00", "20:00"⟩].set 0 ⟨"08:00", "09:00"⟩))
      else ⟨none, some [⟨"06:00", "20:00"⟩], none, none, none, none, none⟩) :=
  C8_dialog_save_validation _ Day.monday 0 [⟨"06:00", "20:00"⟩] "08:00" "09:00" rfl
    (by decide)


lemma orderedInsert_length (x : Slot) (l : List Slot) :
    (orderedInsert x l).length = l.length + 1 := by
  induction l with
  | nil => rfl
  | cons a t ih =>
    rw [orderedInsert]
    by_cases h : slotKey x ≤ slotKey a
    · rw [if_pos h]; rfl
    · rw [if_neg h, List.length_cons, List.length_cons, ih]

lemma sortDay_length (l : List Slot) : (sortDay l).length = l.length := by
  induction l with
  | nil => rfl
  | cons a t ih =>
    show (orderedInsert a (sortDay t)).length = t.length + 1
    rw [orderedInsert_length, ih]

lemma mem_orderedInsert (y x : Slot) (l : List Slot) :
    y ∈ orderedInsert x l ↔ y = x ∨ y ∈ l := by
  induction l with
  | nil => simp [orderedInsert]
  | cons a t ih =>
    rw [orderedInsert]
    by_cases h : slotKey x ≤ slotKey a
    · rw [if_pos h]; simp
    · rw [if_neg h]; simp [ih]; tauto

lemma mem_sortDay (y : Slot) (l : List Slot) : y ∈ sortDay l ↔ y ∈ l := by
  induction l with
  | nil => simp [sortDay]
  | cons a t ih =>
    show y ∈ orderedInsert a (sortDay t) ↔ _
    rw [mem_orderedInsert, ih]
    simp

/-- C2.  Corrected for the last 15-minute band; as amended it is confirmed
for every rounded pointer minute with `roundToInterval startMin ≤ 1424`:
a create-drag spanning less than 15 minutes commits exactly one new slot into
the day, that slot is `{format r, format (r+15)}` with `r = roundToInterval
startMin`, its stored `from` parses back to `r` and its stored duration is
exactly 15 minutes, and the edit dialog opens with `isNew = true`.  (At
`r ∈ {1425, 1440}` the serialisation clamp of `_minutesToTime` breaks the
claimed `from`/duration — see the counterexample.) -/
theorem C2_click_to_create (S : Sched) (day : Day) (startMin currentMin : Nat)
    (h0 : max startMin currentMin - min startMin currentMin < 15)
    (h1 : roundToInterval startMin 15 ≤ 1424) :
    (((commitCreate S day startMin currentMin).1.get day).getD []).length =
      ((S.get day).getD []).length + 1 ∧
    (⟨minutesToTime (roundToInterval startMin 15 : Int),
      minutesToTime ((roundToInterval startMin 15 + 15 : Nat) : Int)⟩ : Slot) ∈
      ((commitCreate S day startMin currentMin).1.get day).getD [] ∧
    parseTimeToMinutes (minutesToTime (roundToInterval startMin 15 : Int)) =
      roundToInterval startMin 15 ∧
    parseTimeToMinutes (minutesToTime ((roundToInterval startMin 15 + 15 : Nat) : Int)) =
      roundToInterval startMin 15 + 15 ∧
    (commitCreate S day startMin currentMin).2.2 = true := by
  have hmin : min (roundToInterval startMin 15 + 15) 1440 =
      roundToInterval startMin 15 + 15 := by omega
  rw [commitCreate]
  simp only [if_pos h0, hmin, get_set_same, Option.getD_some]
  refine ⟨?_, ?_, parse_fmt_nat _ (by omega), parse_fmt_nat _ (by omega), trivial⟩
  · rw [sortDay_length, List.length_append, List.length_cons, List.length_nil]
  · rw [mem_sortDay]
    simp

/-- C2 witness: a click at rounded minute 480 (8:00 AM) on the empty store. -/
theorem C2_witness :
    (((commitCreate emptySched Day.monday 480 480).1.get Day.monday).getD []).length =
      ((emptySched.get Day.monday).getD []).length + 1 ∧
    (⟨minutesToTime (roundToInterval 480 15 : Int),
      minutesToTime ((roundToInterval 480 15 + 15 : Nat) : Int)⟩ : Slot) ∈
      ((commitCreate emptySched Day.monday 480 480).1.get Day.monday).getD [] ∧
    parseTimeToMinutes (minutesToTime (roundToInterval 480 15 : Int)) =
      roundToInterval 480 15 ∧
    parseTimeToMinutes (minutesToTime ((roundToInterval 480 15 + 15 : Nat) : Int)) =
      roundToInterval 480 15 + 15 ∧
    (commitCreate emptySched Day.monday 480 480).2.2 = true :=
  C2_click_to_create emptySched Day.monday 480 480 (by decide) (by decide)

/-- C2 counterexample: a click at the bottom of the column (rounded pointer
minute 1440) commits the slot `{from: "23:59", to: "23:59"}`, whose stored
`from` does not parse back to `roundToInterval 1440 = 1440` and whose duration
is 0, not 15. -/
theorem C2_counterexample :
    (commitCreate emptySched Day.monday 1440 1440).1.get Day.monday =
      some [⟨"23:59", "23:59"⟩] ∧
    parseTimeToMinutes "23:59" ≠ roundToInterval 1440 15 ∧
    parseTimeToMinutes (Slot.mk "23:59" "23:59").to_ -
      parseTimeToMinutes (Slot.mk "23:59" "23:59").from_ ≠ 15 := by
  decide

/-- C3.  Corrected only at the end-of-day corner; as amended it is confirmed
for every stored slot with `fromMin ≤ 1424`: the move handler clamps the
current minute to `≤ toMin − 15` (resize-top) and `≥ fromMin + 15`
(resize-bottom), and after either resize commit the stored slot again
satisfies `toMin − fromMin ≥ 15`, for every pointer position including drags
past the end of the day.  (The unique slot with `fromMin > 1424` permitted by
the hypotheses is `23:45–24:00`, for which the resize-bottom commit stores a
14-minute slot — see the counterexample.) -/
theorem C3_resize_minimum_duration (slot : Slot) (m : Nat)
    (h1 : parseTimeToMinutes slot.to_ ≤ 1440)
    (h2 : parseTimeToMinutes slot.from_ + 15 ≤ parseTimeToMinutes slot.to_)
    (h3 : parseTimeToMinutes slot.from_ ≤ 1424) :
    resizeTopCurrentMin slot m ≤ (parseTimeToMinutes slot.to_ : Int) - 15 ∧
    (parseTimeToMinutes slot.from_ : Int) + 15 ≤ resizeBottomCurrentMin slot m ∧
    parseTimeToMinutes (commitResizeTop slot m).from_ + 15 ≤
      parseTimeToMinutes (commitResizeTop slot m).to_ ∧
    parseTimeToMinutes (commitResizeBottom slot m).from_ + 15 ≤
      parseTimeToMinutes (commitResizeBottom slot m).to_ := by
  refine ⟨min_le_right _ _, le_max_right _ _, ?_, ?_⟩
  · show parseTimeToMinutes (minutesToTime (resizeTopCurrentMin slot m)) + 15 ≤
      parseTimeToMinutes slot.to_
    rw [parse_fmt_int, resizeTopCurrentMin]
    omega
  · show parseTimeToMinutes slot.from_ + 15 ≤
      parseTimeToMinutes (minutesToTime (resizeBottomCurrentMin slot m))
    rw [parse_fmt_int, resizeBottomCurrentMin]
    omega

/-- C3 witness: the slot 6:00–20:00 dragged to pointer minute 1087. -/
theorem C3_witness :
    resizeTopCurrentMin ⟨"06:00", "20:00"⟩ 1087 ≤
      (parseTimeToMinutes (Slot.mk "06:00" "20:00").to_ : Int) - 15 ∧
    (parseTimeToMinutes (Slot.mk "06:00" "20:00").from_ : Int) + 15 ≤
      resizeBottomCurrentMin ⟨"06:00", "20:00"⟩ 1087 ∧
    parseTimeToMinutes (commitResizeTop ⟨"06:00", "20:00"⟩ 1087).from_ + 15 ≤
      parseTimeToMinutes (commitResizeTop ⟨"06:00", "20:00"⟩ 1087).to_ ∧
    parseTimeToMinutes (commitResizeBottom ⟨"06:00", "20:00"⟩ 1087).from_ + 15 ≤
      parseTimeToMinutes (commitResizeBottom ⟨"06:00", "20:00"⟩ 1087).to_ :=
  C3_resize_minimum_duration ⟨"06:00", "20:00"⟩ 1087 (by decide) (by decide) (by decide)

/-- C3 counterexample: the stored slot 23:45–24:00 satisfies the claimed
minimum-duration hypothesis (`toMin − fromMin = 15`), yet any resize-bottom
commit on it stores 23:45–23:59, a 14-minute slot, violating the invariant. -/
theorem C3_counterexample :
    parseTimeToMinutes (Slot.mk "23:45" "24:00").to_ -
      parseTimeToMinutes (Slot.mk "23:45" "24:00").from_ = 15 ∧
    parseTimeToMinutes (commitResizeBottom ⟨"23:45", "24:00"⟩ 1440).to_ <
      parseTimeToMinutes (commitResizeBottom ⟨"23:45", "24:00"⟩ 1440).from_ + 15 := by
  decide


lemma slotMatches_iff (x s : Slot) :
    slotMatches x.from_ x.to_ s = true ↔ s = x := by
  cases s
  cases x
  simp [slotMatches, Slot.mk.injEq]

lemma orderedInsert_insertAfter (a x : Slot) (t : List Slot)
    (ha : ∀ b ∈ t, slotKey a ≤ slotKey b) :
    orderedInsert a (insertAfter x t) =
      if slotKey a ≤ slotKey x then a :: insertAfter x t else x :: a :: t := by
  by_cases hax : slotKey a ≤ slotKey x
  · rw [if_pos hax]
    cases t with
    | nil =>
      show orderedInsert a [x] = a :: [x]
      rw [orderedInsert, if_pos hax]
    | cons b t' =>
      have hab : slotKey a ≤ slotKey b := ha b (List.mem_cons_self _ _)
      rw [insertAfter]
      by_cases hbx : slotKey b ≤ slotKey x
      · rw [if_pos hbx, orderedInsert, if_pos hab]
      · rw [if_neg hbx, orderedInsert, if_pos hax]
  · rw [if_neg hax]
    have hxa : slotKey x < slotKey a := by omega
    have hxt : insertAfter x t = x :: t := by
      cases t with
      | nil => rfl
      | cons b t' =>
        have hab : slotKey a ≤ slotKey b := ha b (List.mem_cons_self _ _)
        rw [insertAfter, if_neg (by omega)]
    rw [hxt, orderedInsert, if_neg (by omega)]
    congr 1
    cases t with
    | nil => rfl
    | cons b t' =>
      have hab : slotKey a ≤ slotKey b := ha b (List.mem_cons_self _ _)
      rw [orderedInsert, if_pos hab]

lemma sortDay_sorted_append (x : Slot) (l : List Slot)
    (hl : l.Pairwise (fun p q => slotKey p ≤ slotKey q)) :
    sortDay (l ++ [x]) = insertAfter x l := by
  induction l with
  | nil => rfl
  | cons a t ih =>
    rw [List.pairwise_cons] at hl
    show orderedInsert a (sortDay (t ++ [x])) = insertAfter x (a :: t)
    rw [ih hl.2, insertAfter, orderedInsert_insertAfter a x t hl.1]

lemma insertAfter_rollback (x : Slot) (l : List Slot)
    (hl : l.Pairwise (fun p q => slotKey p < slotKey q)) :
    (insertAfter x l).findIdx (slotMatches x.from_ x.to_) < (insertAfter x l).length ∧
    (insertAfter x l).eraseIdx
      ((insertAfter x l).findIdx (slotMatches x.from_ x.to_)) = l := by
  have hx : slotMatches x.from_ x.to_ x = true := (slotMatches_iff x x).mpr rfl
  induction l with
  | nil => simp [insertAfter, List.findIdx_cons, hx]
  | cons a t ih =>
    rw [List.pairwise_cons] at hl
    obtain ⟨ha, ht⟩ := hl
    rw [insertAfter]
    by_cases hax : slotKey a ≤ slotKey x
    · rw [if_pos hax]
      by_cases hae : a = x
      · have hxt : insertAfter x t = x :: t := by
          cases t with
          | nil => rfl
          | cons b t' =>
            have hab := ha b (List.mem_cons_self _ _)
            rw [insertAfter, if_neg (by rw [← hae]; omega)]
        have hxa : slotMatches x.from_ x.to_ a = true := (slotMatches_iff x a).mpr hae
        rw [hxt]
        simp only [List.findIdx_cons, hxa, Bool.cond_true, List.length_cons,
          List.eraseIdx_cons_zero]
        exact ⟨Nat.succ_pos _, by rw [hae]⟩
      · have hF : slotMatches x.from_ x.to_ a = false :=
          Bool.eq_false_iff.mpr fun h => hae ((slotMatches_iff x a).mp h)
        obtain ⟨ihb, ihe⟩ := ih ht
        rw [List.findIdx_cons, hF]
        simp only [Bool.cond_false, List.length_cons, List.eraseIdx_cons_succ]
        exact ⟨Nat.succ_lt_succ ihb, by rw [ihe]⟩
    · rw [if_neg hax]
      simp [List.findIdx_cons, hx]

lemma closeDialog_some_eq (S : Sched) (d : Day) (i : Nat) (L : List Slot)
    (hget : S.get d = some L) :
    closeDialog S (some (d, i)) true =
      if (L.get? i).isSome then
        (if (L.eraseIdx i).isEmpty then S.set d none
         else S.set d (some (L.eraseIdx i)), none, false)
      else (S, none, false) := by
  rw [closeDialog, hget]

lemma closeDialog_insert (S : Sched) (day : Day) (st et : String) (l : List Slot)
    (hl : (S.get day).getD [] = l)
    (hsort : l.Pairwise (fun p q => slotKey p < slotKey q))
    (hday : S.get day ≠ some []) :
    closeDialog (S.set day (some (sortDay (l ++ [⟨st, et⟩]))))
      (some (day, (sortDay (l ++ [⟨st, et⟩])).findIdx (slotMatches st et))) true
      = (S, none, false) := by
  have hsa : sortDay (l ++ [⟨st, et⟩]) = insertAfter ⟨st, et⟩ l :=
    sortDay_sorted_append _ l (hsort.imp le_of_lt)
  obtain ⟨hb, he⟩ := insertAfter_rollback ⟨st, et⟩ l hsort
  have hmatch : slotMatches st et = slotMatches (Slot.mk st et).from_ (Slot.mk st et).to_ := rfl
  rw [hmatch, hsa, closeDialog_some_eq _ day _ _ (get_set_same S day _)]
  rw [if_pos (by rw [List.get?_eq_get hb]; rfl)]
  rw [he]
  cases hG : S.get day with
  | none =>
    have hnil : l = [] := by rw [← hl, hG]; rfl
    subst hnil
    rw [if_pos (show (List.isEmpty [] = true) from rfl), set_set_same,
        set_eq_self S day none hG]
  | some l0 =>
    have hleq : l = l0 := by rw [← hl, hG]; rfl
    have hne : l ≠ [] := fun h => hday (by rw [hG, ← hleq, h])
    have hEm : l.isEmpty = false := by
      cases l with
      | nil => exact absurd rfl hne
      | cons c t => rfl
    rw [if_neg (by rw [hEm]; exact Bool.false_ne_true), set_set_same, hleq,
        set_eq_self S day (some l0) hG]

/-- C7.  Corrected.  For every schedule obeying the documented store
invariants on the affected day — slots strictly sorted ascending by `from`
(so no duplicate start key) and no present-but-empty day key (invariant I3) —
a create gesture followed by Cancel on the `isNew` dialog removes the
inserted slot at the recorded `(day, index)`, deletes the day key if the day
became empty, and leaves the stored schedule exactly equal to its state
before the gesture.  (Without the sortedness invariant the gesture's re-sort
survives the rollback — see the counterexample.) -/
theorem C7_cancel_new_slot_rollback (S : Sched) (day : Day) (startMin currentMin : Nat)
    (hsort : ((S.get day).getD []).Pairwise (fun p q => slotKey p < slotKey q))
    (hday : S.get day ≠ some []) :
    closeDialog (commitCreate S day startMin currentMin).1
      (commitCreate S day startMin currentMin).2.1
      (commitCreate S day startMin currentMin).2.2 = (S, none, false) := by
  simp only [commitCreate]
  exact closeDialog_insert S day _ _ _ rfl hsort hday


/-- C7 witness: a click-create on the empty store followed by Cancel leaves
the store empty again (the created `monday` key is deleted). -/
theorem C7_witness :
    closeDialog (commitCreate emptySched Day.monday 480 480).1
      (commitCreate emptySched Day.monday 480 480).2.1
      (commitCreate emptySched Day.monday 480 480).2.2 = (emptySched, none, false) :=
  C7_cancel_new_slot_rollback emptySched Day.monday 480 480 (by exact List.Pairwise.nil)
    (by decide)

/-- C7 counterexample: on an unsorted (transport-delivered) Monday sequence
the create gesture re-sorts the day, and cancelling the new slot does not
restore the store to its prior state. -/
theorem C7_counterexample :
    (closeDialog (commitCreate unsortedMonday Day.monday 570 570).1
      (commitCreate unsortedMonday Day.monday 570 570).2.1
      (commitCreate unsortedMonday Day.monday 570 570).2.2).1 ≠ unsortedMonday := by
  decide


lemma minutesToTime_eq (c : Nat) (hc : c ≤ 1439) :
    minutesToTime c =
      ⟨padStart2 (natToChars (c / 60)) ++ ':' :: padStart2 (natToChars (c % 60))⟩ := by
  rw [minutesToTime]
  have hcl : max 0 (min 1439 (c : Int)) = (c : Int) := by omega
  simp only [hcl, Int.toNat_ofNat]

lemma minutesToTime_length (z : Int) : (minutesToTime z).length = 5 := by
  rw [minutesToTime_clamp]
  have h1 : (0 : Int) ≤ max 0 (min 1439 z) := le_max_left _ _
  have h3 : max 0 (min 1439 z) = ((max 0 (min 1439 z)).toNat : Int) := by omega
  rw [h3, minutesToTime_eq _ (by omega)]
  show (padStart2 (natToChars _) ++ ':' :: padStart2 (natToChars _)).length = 5
  rw [List.length_append, List.length_cons,
      pad2_length _ (by omega),
      pad2_length _ (Nat.lt_of_lt_of_le (Nat.mod_lt _ (by norm_num)) (by norm_num))]

lemma minutesToTime_ne_endOfDay (z : Int) : minutesToTime z ≠ "24:00" := by
  intro h
  have h1 := parse_fmt_int z
  rw [h] at h1
  have h2 : parseTimeToMinutes "24:00" = 1440 := by decide
  omega

/-- C1.  Corrected.  The round-trip `parse (format m) = m` holds for
`m ∈ {0, 15, 60, 720, 1425}`, but `_minutesToTime` clamps its argument to
`[0, 1439]`, so `_minutesToTime 1440 = "23:59"` (never `"24:00"`) and the
round-trip at the end-of-day sentinel gives 1439. -/
theorem C1_time_codec_roundtrip :
    parseTimeToMinutes (minutesToTime 0) = 0 ∧
    parseTimeToMinutes (minutesToTime 15) = 15 ∧
    parseTimeToMinutes (minutesToTime 60) = 60 ∧
    parseTimeToMinutes (minutesToTime 720) = 720 ∧
    parseTimeToMinutes (minutesToTime 1425) = 1425 ∧
    minutesToTime 1440 = "23:59" ∧
    parseTimeToMinutes (minutesToTime 1440) = 1439 := by
  decide

/-- C1, counterexample to the claim as stated: at `m = 1440` the format/parse
round-trip fails and the formatter does not preserve `"24:00"`. -/
theorem C1_counterexample :
    parseTimeToMinutes (minutesToTime 1440) ≠ 1440 ∧ minutesToTime 1440 ≠ "24:00" := by
  decide

/-- C9.  Confirmed.  For `m ≤ 1440`, `roundToInterval m 15` is a multiple of
15 lying in `[0, 1440]`, and it is strictly the nearest multiple of 15: any
other integer multiple of 15 is strictly farther from `m` (for integer `m` an
exact tie is impossible, so the half-up tie rule is vacuous). -/
theorem C9_roundToInterval_quantisation (m : Nat) (k : Int) (hm : m ≤ 1440)
    (hk : 15 * k ≠ (roundToInterval m 15 : Int)) :
    15 ∣ roundToInterval m 15 ∧ roundToInterval m 15 ≤ 1440 ∧
    ((roundToInterval m 15 : Int) - m).natAbs < (15 * k - m).natAbs := by
  unfold roundToInterval at *
  have hd : 30 * ((2 * m + 15) / 30) + (2 * m + 15) % 30 = 2 * m + 15 :=
    Nat.div_add_mod _ _
  have hlt : (2 * m + 15) % 30 < 30 := Nat.mod_lt _ (by norm_num)
  refine ⟨dvd_mul_left 15 _, by omega, by omega⟩

/-- C9 witness at `m = 100`, `k = 6`: the rounding returns 105, a multiple of
15 in range, strictly closer to 100 than the multiple 90. -/
theorem C9_witness :
    15 ∣ roundToInterval 100 15 ∧ roundToInterval 100 15 ≤ 1440 ∧
    ((roundToInterval 100 15 : Int) - 100).natAbs < ((15 * 6 - 100 : Int)).natAbs :=
  C9_roundToInterval_quantisation 100 6 (by decide) (by decide)

/-- C10.  Confirmed.  `_minutesToTime` is total over the integers and renders
the clamped value `min (max m 0) 1439` as a five-character zero-padded
`"HH:MM"` string (witnessed by parsing back the clamp); it can never output
`"24:00"`, every argument `≥ 1440` renders as `"23:59"`, and in particular a
resize commit that drags to the end of the day stores `"23:59"`. -/
theorem C10_minutesToTime_clamps (m : Int) :
    parseTimeToMinutes (minutesToTime m) = (max 0 (min 1439 m)).toNat ∧
    (minutesToTime m).length = 5 ∧
    minutesToTime m ≠ "24:00" ∧
    minutesToTime (1440 + (m.natAbs : Int)) = "23:59" ∧
    (commitResizeBottom allDaySlot 1440).to_ = "23:59" := by
  refine ⟨parse_fmt_int m, minutesToTime_length m, minutesToTime_ne_endOfDay m, ?_, by decide⟩
  rw [minutesToTime_clamp]
  have h1 : (0 : Int) ≤ (m.natAbs : Int) := Int.natCast_nonneg _
  have h2 : max 0 (min 1439 (1440 + (m.natAbs : Int))) = 1439 := by omega
  rw [h2]
  decide

example : minutesToTime 0 = "00:00" := by decide
example : minutesToTime 1440 = "23:59" := by decide
example : minutesToTime 725 = "12:05" := by decide
example : parseTimeToMinutes "12:05" = 725 := by decide
example : parseTimeToMinutes "24:00" = 1440 := by decide
example : parseTimeToMinutes "" = 0 := by decide
example : roundToInterval 1417 15 = 1410 := by decide
example : roundToInterval 1418 15 = 1425 := by decide

end PPD
